import Mathlib

/-
Verification of the Sudoku game core (sudoku-win.cpp).

The 9x9 board is a vector<vector<int>>, embedded as a list of lists of
integers.  Out-of-bounds element access of a std::vector (undefined
behaviour in the source) is modelled by Option: an access outside the
list yields none, and none propagates through the rest of the
computation.  The unbounded loops of the source (the backtracking
recursion fillRemaining and the rejection-sampling loop addEmptyCells)
take an explicit fuel argument; running out of fuel also yields none, so
a some result is a behaviour the source program actually exhibits.
Randomness (rand()) is modelled by a stream of naturals consumed by
index.
-/

namespace Sudoku

/-- A board: rows of cells, as in vector<vector<int>>.  0 is an empty cell. -/
abbrev Grid := List (List ℤ)

/-- Read unsolved[i][j]; none models an out-of-bounds vector access (UB). -/
def getCell (g : Grid) (i j : ℕ) : Option ℤ :=
  match g[i]? with
  | some row => row[j]?
  | none => none

/-- Write unsolved[i][j] = v; none models an out-of-bounds vector access (UB). -/
def setCell (g : Grid) (i j : ℕ) (v : ℤ) : Option Grid :=
  match g[i]? with
  | some row => if j < row.length then some (g.set i (row.set j v)) else none
  | none => none

/-- Read with int indices, as used with user input row-1 / col-1. -/
def getCellZ (g : Grid) (i j : ℤ) : Option ℤ :=
  if 0 ≤ i ∧ 0 ≤ j then getCell g i.toNat j.toNat else none

/-- Write with int indices, as used with user input row-1 / col-1. -/
def setCellZ (g : Grid) (i j : ℤ) (v : ℤ) : Option Grid :=
  if 0 ≤ i ∧ 0 ≤ j then setCell g i.toNat j.toNat v else none

/-- The shape invariant the constructor establishes: 9 rows of 9 cells. -/
def Grid9 (g : Grid) : Prop :=
  g.length = 9 ∧ ∀ row ∈ g, row.length = 9

instance (g : Grid) : Decidable (Grid9 g) := by
  unfold Grid9; infer_instance

/-- int randomGenerator(int num) { return (rand() % num) + 1; } -/
def randomGenerator (r num : ℕ) : ℕ :=
  r % num + 1

/-- Loop body of isAbsentInRow: scan unsolved[i][j] for j in the given list,
returning false at the first hit, as the early return does. -/
def scanRow (g : Grid) (i : ℕ) (num : ℤ) : List ℕ → Option Bool
  | [] => some true
  | j :: rest =>
    match getCell g i j with
    | none => none
    | some v => if v = num then some false else scanRow g i num rest

/-- bool isAbsentInRow(int i, int num) -/
def isAbsentInRow (g : Grid) (i : ℕ) (num : ℤ) : Option Bool :=
  scanRow g i num (List.range 9)

/-- Loop body of isAbsentInCol, scanning unsolved[i][j] for i in the list. -/
def scanCol (g : Grid) (j : ℕ) (num : ℤ) : List ℕ → Option Bool
  | [] => some true
  | i :: rest =>
    match getCell g i j with
    | none => none
    | some v => if v = num then some false else scanCol g j num rest

/-- bool isAbsentInCol(int j, int num) -/
def isAbsentInCol (g : Grid) (j : ℕ) (num : ℤ) : Option Bool :=
  scanCol g j num (List.range 9)

/-- The (i, j) offsets of the two nested 3x3 loops, in source order. -/
def boxOffsets : List (ℕ × ℕ) :=
  [(0, 0), (0, 1), (0, 2), (1, 0), (1, 1), (1, 2), (2, 0), (2, 1), (2, 2)]

/-- Loop body of isAbsentInBox over unsolved[rowStart + a][colStart + b]. -/
def scanBox (g : Grid) (rowStart colStart : ℕ) (num : ℤ) : List (ℕ × ℕ) → Option Bool
  | [] => some true
  | (a, b) :: rest =>
    match getCell g (rowStart + a) (colStart + b) with
    | none => none
    | some v => if v = num then some false else scanBox g rowStart colStart num rest

/-- bool isAbsentInBox(int rowStart, int colStart, int num) -/
def isAbsentInBox (g : Grid) (rowStart colStart : ℕ) (num : ℤ) : Option Bool :=
  scanBox g rowStart colStart num boxOffsets

/-- bool checkIfSafe(int i, int j, int num): row, then column, then the
mini box at (i - i % 3, j - j % 3), with the short-circuit of &&. -/
def checkIfSafe (g : Grid) (i j : ℕ) (num : ℤ) : Option Bool :=
  match isAbsentInRow g i num with
  | none => none
  | some false => some false
  | some true =>
    match isAbsentInCol g j num with
    | none => none
    | some false => some false
    | some true => isAbsentInBox g (i - i % 3) (j - j % 3) num

/-- The candidate values 1..9 of the num loop in fillRemaining. -/
def nums1to9 : List ℤ := [1, 2, 3, 4, 5, 6, 7, 8, 9]

/-- The for-num loop of fillRemaining at cell (i, j): try each candidate,
write it when checkIfSafe allows, recurse through f into the next cell,
and reset the cell to 0 when the recursion reports failure. -/
def tryNums (f : Grid → ℕ → ℕ → Option (Bool × Grid)) (i j : ℕ) :
    Grid → List ℤ → Option (Bool × Grid)
  | g, [] => some (false, g)
  | g, num :: rest =>
    match checkIfSafe g i j num with
    | none => none
    | some false => tryNums f i j g rest
    | some true =>
      match setCell g i j num with
      | none => none
      | some g1 =>
        match f g1 i (j + 1) with
        | none => none
        | some (true, g2) => some (true, g2)
        | some (false, g2) =>
          match setCell g2 i j 0 with
          | none => none
          | some g3 => tryNums f i j g3 rest

/-- bool fillRemaining(int i, int j), with fuel bounding the recursion
depth.  The index adjustments mirror the source: wrap to the next row
when j >= 9 (for i < 8), return true past the end, skip the diagonal
box columns in each band, and in the bottom band advance to the next
row at j == 6, returning true when that leaves the board. -/
def fillRemaining : ℕ → Grid → ℕ → ℕ → Option (Bool × Grid)
  | 0 => fun _ _ _ => none
  | fuel + 1 => fun g i0 j0 =>
    let i := if 9 ≤ j0 ∧ i0 < 8 then i0 + 1 else i0
    let j := if 9 ≤ j0 ∧ i0 < 8 then 0 else j0
    if 9 ≤ i ∧ 9 ≤ j then some (true, g)
    else if i < 3 then
      tryNums (fillRemaining fuel) i (if j < 3 then 3 else j) g nums1to9
    else if i < 6 then
      tryNums (fillRemaining fuel) i (if j = i / 3 * 3 then j + 3 else j) g nums1to9
    else if j = 6 then
      if 9 ≤ i + 1 then some (true, g)
      else tryNums (fillRemaining fuel) (i + 1) 0 g nums1to9
    else
      tryNums (fillRemaining fuel) i j g nums1to9

/-- void addEmptyCells(): while (count != 0) pick a random cell id in
[0,80]; when that cell is non-zero, clear it and decrement count.  The
fuel bounds the number of loop iterations; rnd is the rand() stream,
consumed at position pos. -/
def addEmptyCells (rnd : ℕ → ℕ) : ℕ → ℕ → ℕ → Grid → Option Grid
  | 0 => fun count _ g => if count = 0 then some g else none
  | fuel + 1 => fun count pos g =>
    if count = 0 then some g
    else
      let cellId := randomGenerator (rnd pos) 81 - 1
      match getCell g (cellId / 9) (cellId % 9) with
      | none => none
      | some v =>
        if v ≠ 0 then
          match setCell g (cellId / 9) (cellId % 9) 0 with
          | none => none
          | some g2 => addEmptyCells rnd fuel (count - 1) (pos + 1) g2
        else addEmptyCells rnd fuel count (pos + 1) g

/-- The 81 (i, j) pairs of the two nested loops of isBoardSolved. -/
def cellIndices : List (ℕ × ℕ) :=
  (List.range 9).flatMap fun i => (List.range 9).map fun j => (i, j)

/-- Loop body of isBoardSolved: return false at the first cell that is 0
or differs from the answer key; || short-circuits, so solved[i][j] is
read only when unsolved[i][j] is non-zero. -/
def boardScan (u s : Grid) : List (ℕ × ℕ) → Option Bool
  | [] => some true
  | (i, j) :: rest =>
    match getCell u i j with
    | none => none
    | some a =>
      if a = 0 then some false
      else
        match getCell s i j with
        | none => none
        | some b => if a ≠ b then some false else boardScan u s rest

/-- bool isBoardSolved() -/
def isBoardSolved (u s : Grid) : Option Bool :=
  boardScan u s cellIndices

/-- The outcomes the interaction loop distinguishes for one move
(spec section 7 names them InvalidCoordinate, CellOccupied,
QuitRequested). -/
inductive MoveResult
  | quitRequested
  | cellOccupied
  | invalidCoordinate
  | success
deriving DecidableEq

/-- One iteration of the move loop in main, applied to the puzzle grid:
quit on a 0 sentinel for row or col, then the occupied-cell test on
unsolved[row-1][col-1], then the quit sentinel for val, then the range
check on row, col and val, then the write.  The source performs the
occupied-cell read before the range check, so the read itself can be
out of bounds (none). -/
def applyMove (g : Grid) (row col val : ℤ) : Option (MoveResult × Grid) :=
  if row = 0 then some (MoveResult.quitRequested, g)
  else if col = 0 then some (MoveResult.quitRequested, g)
  else
    match getCellZ g (row - 1) (col - 1) with
    | none => none
    | some v =>
      if v ≠ 0 then some (MoveResult.cellOccupied, g)
      else if val = 0 then some (MoveResult.quitRequested, g)
      else if row < 1 ∨ 9 < row ∨ col < 1 ∨ 9 < col ∨ val < 1 ∨ 9 < val then
        some (MoveResult.invalidCoordinate, g)
      else
        match setCellZ g (row - 1) (col - 1) val with
        | none => none
        | some g1 => some (MoveResult.success, g1)

/-- The two per-session grids of the SudokuBoard object. -/
structure Session where
  unsolved : Grid
  solved : Grid

/-- A call to isBoardSolved as a state transformer: the method reads the
two member grids and writes nothing. -/
def isBoardSolvedCall (st : Session) : Option Bool × Session :=
  (isBoardSolved st.unsolved st.solved, st)

/-- n successive calls to isBoardSolved, collecting the results. -/
def repeatIsSolved : ℕ → Session → List (Option Bool) × Session
  | 0, st => ([], st)
  | n + 1, st =>
    let r := isBoardSolvedCall st
    let rest := repeatIsSolved n r.2
    (r.1 :: rest.1, rest.2)

/-- Number of non-zero cells of the board. -/
def countNonzero : Grid → ℕ
  | [] => 0
  | row :: rest => row.countP (fun v => decide (v ≠ 0)) + countNonzero rest

/-- The data-model invariant of spec section 3: every non-zero puzzle
cell equals the corresponding solution cell. -/
def puzzleInv (p s : Grid) : Prop :=
  ∀ i, i < 9 → ∀ j, j < 9 → (getCell p i j = some 0 ∨ getCell p i j = getCell s i j)

instance (p s : Grid) : Decidable (puzzleInv p s) := by
  unfold puzzleInv; infer_instance

/-- A full valid solution grid, used as a concrete answer key. -/
def gFull : Grid :=
  [[1, 2, 3, 4, 5, 6, 7, 8, 9],
   [4, 5, 6, 7, 8, 9, 1, 2, 3],
   [7, 8, 9, 1, 2, 3, 4, 5, 6],
   [2, 3, 4, 5, 6, 7, 8, 9, 1],
   [5, 6, 7, 8, 9, 1, 2, 3, 4],
   [8, 9, 1, 2, 3, 4, 5, 6, 7],
   [3, 4, 5, 6, 7, 8, 9, 1, 2],
   [6, 7, 8, 9, 1, 2, 3, 4, 5],
   [9, 1, 2, 3, 4, 5, 6, 7, 8]]

/-- gFull with the single cell (0,0) cleared: the puzzle addEmptyCells
produces from gFull with one empty cell and a stream that draws cell 0. -/
def pEasy : Grid :=
  [[0, 2, 3, 4, 5, 6, 7, 8, 9],
   [4, 5, 6, 7, 8, 9, 1, 2, 3],
   [7, 8, 9, 1, 2, 3, 4, 5, 6],
   [2, 3, 4, 5, 6, 7, 8, 9, 1],
   [5, 6, 7, 8, 9, 1, 2, 3, 4],
   [8, 9, 1, 2, 3, 4, 5, 6, 7],
   [3, 4, 5, 6, 7, 8, 9, 1, 2],
   [6, 7, 8, 9, 1, 2, 3, 4, 5],
   [9, 1, 2, 3, 4, 5, 6, 7, 8]]

/-- pEasy after the accepted move writing 9 at (0,0): a value that is
legal input but differs from the answer key value 1. -/
def pWrong : Grid :=
  [[9, 2, 3, 4, 5, 6, 7, 8, 9],
   [4, 5, 6, 7, 8, 9, 1, 2, 3],
   [7, 8, 9, 1, 2, 3, 4, 5, 6],
   [2, 3, 4, 5, 6, 7, 8, 9, 1],
   [5, 6, 7, 8, 9, 1, 2, 3, 4],
   [8, 9, 1, 2, 3, 4, 5, 6, 7],
   [3, 4, 5, 6, 7, 8, 9, 1, 2],
   [6, 7, 8, 9, 1, 2, 3, 4, 5],
   [9, 1, 2, 3, 4, 5, 6, 7, 8]]

/-- An all-zero board. -/
def gZeros : Grid := List.replicate 9 (List.replicate 9 (0 : ℤ))

/-- A board whose row 8 is 1..8 followed by 5, all other cells empty.
Calling fillRemaining directly at (8,8) on it writes into and then
clears the diagonal-box cell (8,8). -/
def gDiagCex : Grid :=
  [[0, 0, 0, 0, 0, 0, 0, 0, 0],
   [0, 0, 0, 0, 0, 0, 0, 0, 0],
   [0, 0, 0, 0, 0, 0, 0, 0, 0],
   [0, 0, 0, 0, 0, 0, 0, 0, 0],
   [0, 0, 0, 0, 0, 0, 0, 0, 0],
   [0, 0, 0, 0, 0, 0, 0, 0, 0],
   [0, 0, 0, 0, 0, 0, 0, 0, 0],
   [0, 0, 0, 0, 0, 0, 0, 0, 0],
   [1, 2, 3, 4, 5, 6, 7, 8, 5]]

/-! Basic facts about cell reads and writes. -/

lemma setCell_getCell_self {g : Grid} {i j : ℕ} {v : ℤ} {g1 : Grid}
    (h : setCell g i j v = some g1) : getCell g1 i j = some v := by
  cases hrow : g[i]? with
  | none => simp only [setCell, hrow] at h; exact absurd h (by simp)
  | some row =>
    simp only [setCell, hrow] at h
    by_cases hj : j < row.length
    · rw [if_pos hj] at h
      obtain ⟨hi, _⟩ := List.getElem?_eq_some.mp hrow
      cases h
      unfold getCell
      rw [List.getElem?_set_self (by simpa using hi)]
      simp [List.getElem?_set_self hj]
    · rw [if_neg hj] at h; exact absurd h (by simp)

lemma setCell_getCell_ne {g : Grid} {i j : ℕ} {v : ℤ} {g1 : Grid}
    (h : setCell g i j v = some g1) {a b : ℕ} (hab : ¬(a = i ∧ b = j)) :
    getCell g1 a b = getCell g a b := by
  cases hrow : g[i]? with
  | none => simp only [setCell, hrow] at h; exact absurd h (by simp)
  | some row =>
    simp only [setCell, hrow] at h
    by_cases hj : j < row.length
    · rw [if_pos hj] at h
      obtain ⟨hi, hrw⟩ := List.getElem?_eq_some.mp hrow
      cases h
      unfold getCell
      by_cases hai : a = i
      · subst hai
        have hb : b ≠ j := fun hbj => hab ⟨rfl, hbj⟩
        rw [List.getElem?_set_self (by simpa using hi), hrow]
        simp [List.getElem?_set_ne (fun hh => hb hh.symm)]
      · rw [List.getElem?_set_ne (fun hh => hai hh.symm)]
    · rw [if_neg hj] at h; exact absurd h (by simp)

lemma setCell_getCell_none_iff {g : Grid} {i j : ℕ} {v : ℤ} {g1 : Grid}
    (h : setCell g i j v = some g1) (a b : ℕ) :
    (getCell g1 a b = none ↔ getCell g a b = none) := by
  cases hrow : g[i]? with
  | none => simp only [setCell, hrow] at h; exact absurd h (by simp)
  | some row =>
    simp only [setCell, hrow] at h
    by_cases hj : j < row.length
    · rw [if_pos hj] at h
      obtain ⟨hi, hrw⟩ := List.getElem?_eq_some.mp hrow
      cases h
      unfold getCell
      by_cases hai : a = i
      · subst hai
        rw [List.getElem?_set_self (by simpa using hi), hrow]
        show (row.set j v)[b]? = none ↔ row[b]? = none
        simp only [List.getElem?_eq_none_iff, List.length_set]
      · rw [List.getElem?_set_ne (fun hh => hai hh.symm)]
    · rw [if_neg hj] at h; exact absurd h (by simp)

lemma getCell_some_of_grid9 {g : Grid} (hg : Grid9 g) {i j : ℕ}
    (hi : i < 9) (hj : j < 9) : ∃ v, getCell g i j = some v := by
  obtain ⟨hlen, hrows⟩ := hg
  unfold getCell
  have hi9 : i < g.length := by omega
  cases hrow : g[i]? with
  | none => exact absurd hrow (by simp [List.getElem?_eq_getElem hi9])
  | some row =>
    have hmem : row ∈ g := by
      rcases List.getElem?_eq_some.mp hrow with ⟨h1, h2⟩
      exact h2 ▸ List.getElem_mem h1
    have : j < row.length := by rw [hrows row hmem]; exact hj
    exact ⟨row[j], by simp [List.getElem?_eq_getElem this]⟩

/-! Correctness of the absence scans and of the solved check. -/

lemma scanRow_eq_true_iff {g : Grid} {i : ℕ} {num : ℤ} {L : List ℕ}
    (htot : ∀ j ∈ L, ∃ v, getCell g i j = some v) :
    (scanRow g i num L = some true ↔ ∀ j ∈ L, getCell g i j ≠ some num) := by
  induction L with
  | nil => simp [scanRow]
  | cons j rest ih =>
    obtain ⟨v, hv⟩ := htot j (by simp)
    have htot2 : ∀ a ∈ rest, ∃ w, getCell g i a = some w :=
      fun a ha => htot a (List.mem_cons_of_mem _ ha)
    simp only [scanRow, hv]
    by_cases hvn : v = num
    · rw [if_pos hvn]
      constructor
      · intro hc; exact absurd hc (by simp)
      · intro hall; exact absurd (hvn ▸ hv) (hall j (by simp))
    · rw [if_neg hvn, ih htot2]
      constructor
      · intro hrest a ha
        rcases List.mem_cons.mp ha with h1 | h1
        · subst h1; rw [hv]; intro hcon; exact hvn (by injection hcon)
        · exact hrest a h1
      · intro hall a ha; exact hall a (List.mem_cons_of_mem _ ha)

lemma scanCol_eq_true_iff {g : Grid} {j : ℕ} {num : ℤ} {L : List ℕ}
    (htot : ∀ i ∈ L, ∃ v, getCell g i j = some v) :
    (scanCol g j num L = some true ↔ ∀ i ∈ L, getCell g i j ≠ some num) := by
  induction L with
  | nil => simp [scanCol]
  | cons i rest ih =>
    obtain ⟨v, hv⟩ := htot i (by simp)
    have htot2 : ∀ a ∈ rest, ∃ w, getCell g a j = some w :=
      fun a ha => htot a (List.mem_cons_of_mem _ ha)
    simp only [scanCol, hv]
    by_cases hvn : v = num
    · rw [if_pos hvn]
      constructor
      · intro hc; exact absurd hc (by simp)
      · intro hall; exact absurd (hvn ▸ hv) (hall i (by simp))
    · rw [if_neg hvn, ih htot2]
      constructor
      · intro hrest a ha
        rcases List.mem_cons.mp ha with h1 | h1
        · subst h1; rw [hv]; intro hcon; exact hvn (by injection hcon)
        · exact hrest a h1
      · intro hall a ha; exact hall a (List.mem_cons_of_mem _ ha)

lemma scanBox_eq_true_iff {g : Grid} {rs cs : ℕ} {num : ℤ} {L : List (ℕ × ℕ)}
    (htot : ∀ p ∈ L, ∃ v, getCell g (rs + p.1) (cs + p.2) = some v) :
    (scanBox g rs cs num L = some true ↔
      ∀ p ∈ L, getCell g (rs + p.1) (cs + p.2) ≠ some num) := by
  induction L with
  | nil => simp [scanBox]
  | cons p rest ih =>
    obtain ⟨a, b⟩ := p
    obtain ⟨v, hv⟩ := htot (a, b) (by simp)
    have htot2 : ∀ q ∈ rest, ∃ w, getCell g (rs + q.1) (cs + q.2) = some w :=
      fun q hq => htot q (List.mem_cons_of_mem _ hq)
    simp only [scanBox, hv]
    by_cases hvn : v = num
    · rw [if_pos hvn]
      constructor
      · intro hc; exact absurd hc (by simp)
      · intro hall; exact absurd (hvn ▸ hv) (hall (a, b) (by simp))
    · rw [if_neg hvn, ih htot2]
      constructor
      · intro hrest q hq
        rcases List.mem_cons.mp hq with h1 | h1
        · subst h1; rw [hv]; intro hcon; exact hvn (by injection hcon)
        · exact hrest q h1
      · intro hall q hq; exact hall q (List.mem_cons_of_mem _ hq)

lemma isAbsentInRow_iff {g : Grid} (hg : Grid9 g) {i : ℕ} (hi : i < 9) {num : ℤ} :
    (isAbsentInRow g i num = some true ↔ ∀ j, j < 9 → getCell g i j ≠ some num) := by
  unfold isAbsentInRow
  rw [scanRow_eq_true_iff (fun j hj => getCell_some_of_grid9 hg hi (List.mem_range.mp hj))]
  simp [List.mem_range]

lemma isAbsentInCol_iff {g : Grid} (hg : Grid9 g) {j : ℕ} (hj : j < 9) {num : ℤ} :
    (isAbsentInCol g j num = some true ↔ ∀ i, i < 9 → getCell g i j ≠ some num) := by
  unfold isAbsentInCol
  rw [scanCol_eq_true_iff (fun i hi => getCell_some_of_grid9 hg (List.mem_range.mp hi) hj)]
  simp [List.mem_range]

lemma mem_boxOffsets {a b : ℕ} : ((a, b) ∈ boxOffsets ↔ a < 3 ∧ b < 3) := by
  simp [boxOffsets, Prod.ext_iff]
  omega

lemma isAbsentInBox_iff {g : Grid} (hg : Grid9 g) {rs cs : ℕ}
    (hrs : rs ≤ 6) (hcs : cs ≤ 6) {num : ℤ} :
    (isAbsentInBox g rs cs num = some true ↔
      ∀ a, a < 3 → ∀ b, b < 3 → getCell g (rs + a) (cs + b) ≠ some num) := by
  unfold isAbsentInBox
  rw [scanBox_eq_true_iff]
  · constructor
    · intro h a ha b hb; exact h (a, b) (mem_boxOffsets.mpr ⟨ha, hb⟩)
    · intro h p hp
      obtain ⟨a, b⟩ := p
      obtain ⟨ha, hb⟩ := mem_boxOffsets.mp hp
      exact h a ha b hb
  · intro p hp
    obtain ⟨a, b⟩ := p
    obtain ⟨ha, hb⟩ := mem_boxOffsets.mp hp
    exact getCell_some_of_grid9 hg (by omega) (by omega)

lemma checkIfSafe_parts {g : Grid} {i j : ℕ} {num : ℤ} :
    (checkIfSafe g i j num = some true ↔
      isAbsentInRow g i num = some true ∧ isAbsentInCol g j num = some true ∧
        isAbsentInBox g (i - i % 3) (j - j % 3) num = some true) := by
  unfold checkIfSafe
  cases hR : isAbsentInRow g i num with
  | none => simp
  | some bR =>
    cases bR
    · simp
    · cases hC : isAbsentInCol g j num with
      | none => simp
      | some bC =>
        cases bC
        · simp
        · simp

lemma boardScan_eq_true_iff {u s : Grid} {L : List (ℕ × ℕ)}
    (htu : ∀ p ∈ L, ∃ v, getCell u p.1 p.2 = some v)
    (hts : ∀ p ∈ L, ∃ v, getCell s p.1 p.2 = some v) :
    (boardScan u s L = some true ↔
      ∀ p ∈ L, getCell u p.1 p.2 ≠ some 0 ∧ getCell u p.1 p.2 = getCell s p.1 p.2) := by
  induction L with
  | nil => simp [boardScan]
  | cons p rest ih =>
    obtain ⟨i, j⟩ := p
    obtain ⟨a, ha⟩ := htu (i, j) (by simp)
    obtain ⟨b, hb⟩ := hts (i, j) (by simp)
    have htu2 : ∀ q ∈ rest, ∃ v, getCell u q.1 q.2 = some v :=
      fun q hq => htu q (List.mem_cons_of_mem _ hq)
    have hts2 : ∀ q ∈ rest, ∃ v, getCell s q.1 q.2 = some v :=
      fun q hq => hts q (List.mem_cons_of_mem _ hq)
    simp only [boardScan, ha]
    by_cases ha0 : a = 0
    · rw [if_pos ha0]
      constructor
      · intro hc; exact absurd hc (by simp)
      · intro hall
        exact absurd (ha0 ▸ ha) ((hall (i, j) (by simp)).1)
    · rw [if_neg ha0]
      simp only [hb]
      by_cases hab : a = b
      · rw [if_neg (by simpa using hab), ih htu2 hts2]
        constructor
        · intro hrest q hq
          rcases List.mem_cons.mp hq with h1 | h1
          · subst h1
            refine ⟨by rw [ha]; intro hcon; exact ha0 (by injection hcon), ?_⟩
            rw [ha, hb, hab]
          · exact hrest q h1
        · intro hall q hq; exact hall q (List.mem_cons_of_mem _ hq)
      · rw [if_pos (by simpa using hab)]
        constructor
        · intro hc; exact absurd hc (by simp)
        · intro hall
          have := (hall (i, j) (by simp)).2
          rw [ha, hb] at this
          exact (hab (by injection this)).elim

lemma mem_cellIndices {p : ℕ × ℕ} : (p ∈ cellIndices ↔ p.1 < 9 ∧ p.2 < 9) := by
  obtain ⟨i, j⟩ := p
  simp only [cellIndices, List.mem_flatMap, List.mem_map, List.mem_range, Prod.mk.injEq]
  constructor
  · rintro ⟨a, ha, b, hb, h1, h2⟩
    subst h1; subst h2
    exact ⟨ha, hb⟩
  · rintro ⟨h1, h2⟩
    exact ⟨i, h1, j, h2, rfl, rfl⟩

/-- C5: isBoardSolved returns true exactly when every one of the 81
cells of the puzzle grid is non-zero and equals the corresponding cell
of the solution grid. -/
theorem isBoardSolved_iff (u s : Grid) (hu : Grid9 u) (hs : Grid9 s) :
    (isBoardSolved u s = some true ↔
      ∀ i, i < 9 → ∀ j, j < 9 →
        getCell u i j ≠ some 0 ∧ getCell u i j = getCell s i j) := by
  unfold isBoardSolved
  rw [boardScan_eq_true_iff]
  · constructor
    · intro h i hi j hj; exact h (i, j) (mem_cellIndices.mpr ⟨hi, hj⟩)
    · intro h p hp
      obtain ⟨hi, hj⟩ := mem_cellIndices.mp hp
      exact h p.1 hi p.2 hj
  · intro p hp
    obtain ⟨hi, hj⟩ := mem_cellIndices.mp hp
    exact getCell_some_of_grid9 hu hi hj
  · intro p hp
    obtain ⟨hi, hj⟩ := mem_cellIndices.mp hp
    exact getCell_some_of_grid9 hs hi hj

/-- C5 witness: the two hypotheses hold for the concrete full grid, and
the equivalence is obtained from the theorem there. -/
theorem isBoardSolved_iff_witness :
    Grid9 gFull ∧
      (isBoardSolved gFull gFull = some true ↔
        ∀ i, i < 9 → ∀ j, j < 9 →
          getCell gFull i j ≠ some 0 ∧ getCell gFull i j = getCell gFull i j) :=
  ⟨by decide, isBoardSolved_iff gFull gFull (by decide) (by decide)⟩

/-- C7: for r, c in [0,8] and v in [1,9], checkIfSafe on the puzzle grid
returns true exactly when v is absent from row r, absent from column c,
and absent from the 3x3 box whose top-left corner is
(r - r % 3, c - c % 3), all read from the grid it is given. -/
theorem checkIfSafe_iff (g : Grid) (r c : ℕ) (v : ℤ) (hg : Grid9 g)
    (hr : r < 9) (hc : c < 9) (hv1 : 1 ≤ v) (hv9 : v ≤ 9) :
    (checkIfSafe g r c v = some true ↔
      ((∀ j, j < 9 → getCell g r j ≠ some v) ∧
       (∀ i, i < 9 → getCell g i c ≠ some v) ∧
       (∀ a, a < 3 → ∀ b, b < 3 →
          getCell g (r - r % 3 + a) (c - c % 3 + b) ≠ some v))) := by
  rw [checkIfSafe_parts, isAbsentInRow_iff hg hr, isAbsentInCol_iff hg hc,
    isAbsentInBox_iff hg (by omega) (by omega)]

/-- C7 witness: the hypotheses hold for the concrete puzzle pEasy at
(0,0) with value 5, and the equivalence is the theorem there. -/
theorem checkIfSafe_iff_witness :
    (Grid9 pEasy ∧ 0 < 9 ∧ 1 ≤ (5 : ℤ) ∧ (5 : ℤ) ≤ 9) ∧
      (checkIfSafe pEasy 0 0 5 = some true ↔
        ((∀ j, j < 9 → getCell pEasy 0 j ≠ some 5) ∧
         (∀ i, i < 9 → getCell pEasy i 0 ≠ some 5) ∧
         (∀ a, a < 3 → ∀ b, b < 3 →
            getCell pEasy (0 - 0 % 3 + a) (0 - 0 % 3 + b) ≠ some 5))) :=
  ⟨⟨by decide, by decide, by decide, by decide⟩,
    checkIfSafe_iff pEasy 0 0 5 (by decide) (by decide) (by decide) (by decide) (by decide)⟩

/-! Counting non-zero cells, and the carving loop. -/

lemma countP_set_zero {row : List ℤ} {j : ℕ} {v : ℤ}
    (hj : row[j]? = some v) (hv : v ≠ 0) :
    (row.set j 0).countP (fun x => decide (x ≠ 0)) + 1
      = row.countP (fun x => decide (x ≠ 0)) := by
  induction row generalizing j with
  | nil => simp at hj
  | cons a t ih =>
    cases j with
    | zero =>
      have ha : a = v := by simpa using hj
      subst ha
      have h1 : ((a :: t).set 0 (0 : ℤ)) = (0 : ℤ) :: t := rfl
      rw [h1, List.countP_cons, List.countP_cons]
      simp [hv]
    | succ j2 =>
      have hj2 : t[j2]? = some v := by simpa using hj
      have hstep := ih hj2
      have h1 : ((a :: t).set (j2 + 1) (0 : ℤ)) = a :: t.set j2 (0 : ℤ) := rfl
      rw [h1, List.countP_cons, List.countP_cons]
      cases hb : (decide (a ≠ (0 : ℤ)))
      · rw [if_neg (by simp [hb])]
        omega
      · rw [if_pos (by simp [hb])]
        omega

lemma getCell_cons_succ (row : List ℤ) (rest : Grid) (i j : ℕ) :
    getCell (row :: rest) (i + 1) j = getCell rest i j := by
  unfold getCell
  rw [List.getElem?_cons_succ]

lemma setCell_cons_succ (row : List ℤ) (rest : Grid) (i j : ℕ) (w : ℤ) :
    setCell (row :: rest) (i + 1) j w = (setCell rest i j w).map (fun t => row :: t) := by
  unfold setCell
  rw [List.getElem?_cons_succ]
  cases h : rest[i]? with
  | none => simp
  | some r =>
    show (if j < r.length then some ((row :: rest).set (i + 1) (r.set j w)) else none)
      = Option.map (fun t => row :: t)
          (if j < r.length then some (rest.set i (r.set j w)) else none)
    by_cases hj : j < r.length
    · rw [if_pos hj, if_pos hj]
      rfl
    · rw [if_neg hj, if_neg hj]
      rfl

lemma countNonzero_setCell_zero {g : Grid} {i j : ℕ} {v : ℤ} {g2 : Grid}
    (hget : getCell g i j = some v) (hv : v ≠ 0) (hset : setCell g i j 0 = some g2) :
    countNonzero g2 + 1 = countNonzero g := by
  induction g generalizing i g2 with
  | nil => simp [getCell] at hget
  | cons row rest ih =>
    cases i with
    | zero =>
      have hrow : row[j]? = some v := by simpa [getCell] using hget
      have hjlt : j < row.length := by
        obtain ⟨h1, -⟩ := List.getElem?_eq_some.mp hrow
        exact h1
      have hg2 : g2 = row.set j 0 :: rest := by
        simp only [setCell, List.getElem?_cons_zero] at hset
        rw [if_pos hjlt] at hset
        have h1 : ((row :: rest).set 0 (row.set j 0)) = row.set j 0 :: rest := rfl
        rw [h1] at hset
        exact (Option.some.injEq _ _ ▸ hset).symm
      subst hg2
      show List.countP (fun x => decide (x ≠ 0)) (row.set j 0) + countNonzero rest + 1
        = List.countP (fun x => decide (x ≠ 0)) row + countNonzero rest
      have := countP_set_zero hrow hv
      omega
    | succ i2 =>
      have hget2 : getCell rest i2 j = some v := by
        rw [← getCell_cons_succ row rest i2 j]; exact hget
      rw [setCell_cons_succ] at hset
      cases hset2 : setCell rest i2 j 0 with
      | none => rw [hset2] at hset; exact absurd hset (by simp)
      | some t =>
        rw [hset2] at hset
        have hg2 : g2 = row :: t := by
          simpa using hset.symm
        subst hg2
        show List.countP (fun x => decide (x ≠ 0)) row + countNonzero t + 1
          = List.countP (fun x => decide (x ≠ 0)) row + countNonzero rest
        have := ih hget2 hset2
        omega

lemma addEmptyCells_master (rnd : ℕ → ℕ) :
    ∀ fuel count pos g p, addEmptyCells rnd fuel count pos g = some p →
      countNonzero p + count = countNonzero g ∧
      (∀ a b w, getCell p a b = some w → w ≠ 0 → getCell g a b = some w) ∧
      (∀ a b, getCell p a b = none → getCell g a b = none) := by
  intro fuel
  induction fuel with
  | zero =>
    intro count pos g p h
    simp only [addEmptyCells] at h
    by_cases hc : count = 0
    · rw [if_pos hc] at h
      cases h
      subst hc
      exact ⟨by omega, fun a b w hw _ => hw, fun a b hn => hn⟩
    · rw [if_neg hc] at h
      exact absurd h (by simp)
  | succ fuel ih =>
    intro count pos g p h
    simp only [addEmptyCells] at h
    by_cases hc : count = 0
    · rw [if_pos hc] at h
      cases h
      subst hc
      exact ⟨by omega, fun a b w hw _ => hw, fun a b hn => hn⟩
    · rw [if_neg hc] at h
      cases hget : getCell g ((randomGenerator (rnd pos) 81 - 1) / 9)
          ((randomGenerator (rnd pos) 81 - 1) % 9) with
      | none =>
        simp only [hget] at h
        exact absurd h (by simp)
      | some v =>
        simp only [hget] at h
        by_cases hv : v ≠ 0
        · rw [if_pos hv] at h
          cases hset : setCell g ((randomGenerator (rnd pos) 81 - 1) / 9)
              ((randomGenerator (rnd pos) 81 - 1) % 9) 0 with
          | none =>
            simp only [hset] at h
            exact absurd h (by simp)
          | some g2 =>
            simp only [hset] at h
            obtain ⟨h1, h2, h3⟩ := ih (count - 1) (pos + 1) g2 p h
            have hdec := countNonzero_setCell_zero hget hv hset
            refine ⟨by omega, ?_, ?_⟩
            · intro a b w hw hw0
              have hg2 := h2 a b w hw hw0
              by_cases hij : a = (randomGenerator (rnd pos) 81 - 1) / 9 ∧
                  b = (randomGenerator (rnd pos) 81 - 1) % 9
              · obtain ⟨ha, hb⟩ := hij
                subst ha; subst hb
                rw [setCell_getCell_self hset] at hg2
                have h0w : (0 : ℤ) = w := by injection hg2
                exact (hw0 h0w.symm).elim
              · rw [← setCell_getCell_ne hset hij]
                exact hg2
            · intro a b hn
              have hg2 := h3 a b hn
              exact (setCell_getCell_none_iff hset a b).mp hg2
        · rw [if_neg hv] at h
          exact ih count (pos + 1) g p h

lemma countNonzero_rows {g : Grid}
    (h : ∀ row ∈ g, row.countP (fun x => decide (x ≠ 0)) = 9) :
    countNonzero g = 9 * g.length := by
  induction g with
  | nil => simp [countNonzero]
  | cons row rest ih =>
    show row.countP (fun x => decide (x ≠ 0)) + countNonzero rest = 9 * (rest.length + 1)
    rw [h row (by simp), ih (fun r hr => h r (List.mem_cons_of_mem _ hr))]
    ring

lemma countNonzero_of_full {g : Grid} (hg : Grid9 g)
    (hnz : ∀ i, i < 9 → ∀ j, j < 9 → getCell g i j ≠ some 0) :
    countNonzero g = 81 := by
  obtain ⟨hlen, hrows⟩ := hg
  have hrow9 : ∀ row ∈ g, row.countP (fun x => decide (x ≠ 0)) = 9 := by
    intro row hmem
    obtain ⟨i, hi⟩ := List.mem_iff_getElem?.mp hmem
    have hi9 : i < 9 := by
      obtain ⟨h1, -⟩ := List.getElem?_eq_some.mp hi
      omega
    have hlenr : row.length = 9 := hrows row hmem
    rw [← hlenr, List.countP_eq_length]
    intro a hmema
    obtain ⟨j, hj⟩ := List.mem_iff_getElem?.mp hmema
    have hj9 : j < 9 := by
      obtain ⟨h1, -⟩ := List.getElem?_eq_some.mp hj
      omega
    have hcell : getCell g i j = some a := by
      simp only [getCell, hi]
      exact hj
    have ha0 : a ≠ 0 := by
      intro hh
      exact hnz i hi9 j hj9 (hh ▸ hcell)
    simpa using ha0
  rw [countNonzero_rows hrow9, hlen]

/-- C4: for every fully non-zero 9x9 solution grid and every target
empty-cell count k with k ≤ 81, whenever the carving loop completes it
produces a puzzle grid with exactly 81 - k non-zero cells, and every
non-zero cell of the puzzle equals the solution at that position. -/
theorem addEmptyCells_spec (rnd : ℕ → ℕ) (fuel k pos : ℕ) (s p : Grid)
    (hs : Grid9 s) (hnz : ∀ i, i < 9 → ∀ j, j < 9 → getCell s i j ≠ some 0)
    (hk : k ≤ 81) (h : addEmptyCells rnd fuel k pos s = some p) :
    countNonzero p = 81 - k ∧ puzzleInv p s := by
  obtain ⟨h1, h2, h3⟩ := addEmptyCells_master rnd fuel k pos s p h
  constructor
  · rw [countNonzero_of_full ⟨hs.1, hs.2⟩ hnz] at h1
    omega
  · intro i hi j hj
    cases hpc : getCell p i j with
    | none =>
      obtain ⟨v, hv⟩ := getCell_some_of_grid9 hs hi hj
      rw [h3 i j hpc] at hv
      exact absurd hv (by simp)
    | some w =>
      by_cases hw : w = 0
      · left; rw [hw]
      · right; rw [h2 i j w hpc hw]

/-- C4 witness: carving one cell out of the concrete full grid with a
stream that draws cell 0 gives the puzzle pEasy with 80 non-zero cells,
all matching the solution. -/
theorem addEmptyCells_spec_witness :
    (Grid9 gFull ∧ (1 : ℕ) ≤ 81 ∧
      addEmptyCells (fun _ => 0) 1 1 0 gFull = some pEasy) ∧
      (countNonzero pEasy = 81 - 1 ∧ puzzleInv pEasy gFull) :=
  ⟨⟨by decide, by decide, by decide⟩,
    addEmptyCells_spec (fun _ => 0) 1 1 0 gFull pEasy (by decide)
      (by decide) (by decide) (by decide)⟩

/-! The move loop of main. -/

lemma applyMove_success_inv {g : Grid} {row col val : ℤ} {g1 : Grid}
    (h : applyMove g row col val = some (MoveResult.success, g1)) :
    1 ≤ row ∧ row ≤ 9 ∧ 1 ≤ col ∧ col ≤ 9 ∧ 1 ≤ val ∧ val ≤ 9 ∧
      getCellZ g (row - 1) (col - 1) = some 0 ∧
      setCellZ g (row - 1) (col - 1) val = some g1 := by
  unfold applyMove at h
  by_cases h0 : row = 0
  · rw [if_pos h0] at h; exact absurd h (by simp)
  rw [if_neg h0] at h
  by_cases h0c : col = 0
  · rw [if_pos h0c] at h; exact absurd h (by simp)
  rw [if_neg h0c] at h
  cases hget : getCellZ g (row - 1) (col - 1) with
  | none => simp only [hget] at h; exact absurd h (by simp)
  | some v =>
    simp only [hget] at h
    by_cases hv : v ≠ 0
    · rw [if_pos hv] at h; exact absurd h (by simp)
    rw [if_neg hv] at h
    have hv0 : v = 0 := by omega
    by_cases hval : val = 0
    · rw [if_pos hval] at h; exact absurd h (by simp)
    rw [if_neg hval] at h
    by_cases hrange : row < 1 ∨ 9 < row ∨ col < 1 ∨ 9 < col ∨ val < 1 ∨ 9 < val
    · rw [if_pos hrange] at h; exact absurd h (by simp)
    rw [if_neg hrange] at h
    push_neg at hrange
    cases hset : setCellZ g (row - 1) (col - 1) val with
    | none => simp only [hset] at h; exact absurd h (by simp)
    | some g2 =>
      simp only [hset] at h
      cases h
      exact ⟨by omega, by omega, by omega, by omega, by omega, by omega, by rw [hv0], rfl⟩

/-- C2 (amended): the invariant that every non-zero puzzle cell equals
the corresponding solution cell holds after puzzle creation
(addEmptyCells), and is preserved by an accepted move exactly when the
value written equals the solution value at that cell: it is preserved
when the move writes the solution value, and violated whenever the
accepted move writes any other value. -/
theorem puzzleInv_creation_and_correct_moves :
    (∀ (rnd : ℕ → ℕ) (fuel k pos : ℕ) (s p : Grid),
      addEmptyCells rnd fuel k pos s = some p → puzzleInv p s) ∧
    (∀ (s p : Grid) (row col val : ℤ) (p1 : Grid), puzzleInv p s →
      applyMove p row col val = some (MoveResult.success, p1) →
      getCellZ s (row - 1) (col - 1) = some val →
      puzzleInv p1 s) ∧
    (∀ (s p : Grid) (row col val w : ℤ) (p1 : Grid),
      applyMove p row col val = some (MoveResult.success, p1) →
      getCellZ s (row - 1) (col - 1) = some w → w ≠ val →
      ¬ puzzleInv p1 s) := by
  refine ⟨?_, ?_, ?_⟩
  · intro rnd fuel k pos s p h i hi j hj
    obtain ⟨-, h2, h3⟩ := addEmptyCells_master rnd fuel k pos s p h
    cases hpc : getCell p i j with
    | none => right; rw [h3 i j hpc]
    | some w =>
      by_cases hw : w = 0
      · left; rw [hw]
      · right; rw [h2 i j w hpc hw]
  · intro s p row col val p1 hinv h hsol i hi j hj
    obtain ⟨hr1, hr9, hc1, hc9, hv1, hv9, hget, hset⟩ := applyMove_success_inv h
    have hrc : (0 : ℤ) ≤ row - 1 ∧ (0 : ℤ) ≤ col - 1 := ⟨by omega, by omega⟩
    rw [setCellZ, if_pos hrc] at hset
    rw [getCellZ, if_pos hrc] at hsol
    by_cases hij : i = (row - 1).toNat ∧ j = (col - 1).toNat
    · right
      obtain ⟨hia, hjb⟩ := hij
      subst hia; subst hjb
      rw [setCell_getCell_self hset, hsol]
    · have hfr := setCell_getCell_ne hset hij
      rcases hinv i hi j hj with hl | hr
      · left; rw [hfr, hl]
      · right; rw [hfr, hr]
  · intro s p row col val w p1 h hsol hw hinvFull
    obtain ⟨hr1, hr9, hc1, hc9, hv1, hv9, hget, hset⟩ := applyMove_success_inv h
    have hrc : (0 : ℤ) ≤ row - 1 ∧ (0 : ℤ) ≤ col - 1 := ⟨by omega, by omega⟩
    rw [setCellZ, if_pos hrc] at hset
    rw [getCellZ, if_pos hrc] at hsol
    have hrn : (row - 1).toNat < 9 := by omega
    have hcn : (col - 1).toNat < 9 := by omega
    have hcell := setCell_getCell_self hset
    rcases hinvFull (row - 1).toNat hrn (col - 1).toNat hcn with hl | hr
    · rw [hcell] at hl
      have hv0 : val = 0 := by injection hl
      omega
    · rw [hcell, hsol] at hr
      have hvw : val = w := by injection hr
      exact hw hvw.symm

/-- C2 witness: for the concrete session (solution gFull, puzzle pEasy
carved by one draw of cell 0) the creation part gives the invariant for
pEasy, the preservation part applies to the accepted move that writes
the solution value 1 at (1,1), and the violation part applies to the
accepted move that writes 9 there instead. -/
theorem puzzleInv_creation_and_correct_moves_witness :
    puzzleInv pEasy gFull ∧ puzzleInv gFull gFull ∧ ¬ puzzleInv pWrong gFull :=
  ⟨puzzleInv_creation_and_correct_moves.1 (fun _ => 0) 1 1 0 gFull pEasy (by decide),
   puzzleInv_creation_and_correct_moves.2.1 gFull pEasy 1 1 1 gFull (by decide)
     (by decide) (by decide),
   puzzleInv_creation_and_correct_moves.2.2 gFull pEasy 1 1 9 1 pWrong (by decide)
     (by decide) (by decide)⟩

/-- C2 counterexample: on the freshly carved puzzle pEasy (which
satisfies the invariant), the accepted in-range move writing 9 at (1,1)
succeeds, but the resulting grid pWrong has the non-zero cell (0,0) = 9
while the solution holds 1 there, so the invariant is not preserved by
every accepted move. -/
theorem applyMove_breaks_puzzleInv :
    puzzleInv pEasy gFull ∧
      applyMove pEasy 1 1 9 = some (MoveResult.success, pWrong) ∧
      ¬ puzzleInv pWrong gFull := by decide

/-- C3: with row = 10 the move loop evaluates unsolved[9][0] in the
occupied-cell test before any range check; that vector access is out of
bounds (undefined behaviour, modelled as none), so no InvalidCoordinate
outcome is produced and the range validation never runs. -/
theorem applyMove_oob_before_validation :
    applyMove gZeros 10 1 5 = none := by decide

/-- C6: whenever the target cell already holds a non-zero value, the
move loop reports the occupied cell and returns the puzzle grid
unchanged, for every value of val. -/
theorem applyMove_occupied (g : Grid) (row col val : ℤ) (v : ℤ)
    (hr1 : 1 ≤ row) (hr9 : row ≤ 9) (hc1 : 1 ≤ col) (hc9 : col ≤ 9)
    (hget : getCellZ g (row - 1) (col - 1) = some v) (hv : v ≠ 0) :
    applyMove g row col val = some (MoveResult.cellOccupied, g) := by
  unfold applyMove
  rw [if_neg (by omega), if_neg (by omega)]
  simp only [hget]
  rw [if_pos hv]

/-- C6 witness: cell (2,3) of the full grid holds 6, so the move
reporting follows from the theorem at that concrete state. -/
theorem applyMove_occupied_witness :
    ((1 : ℤ) ≤ 2 ∧ (2 : ℤ) ≤ 9 ∧ getCellZ gFull (2 - 1) (3 - 1) = some 6 ∧ (6 : ℤ) ≠ 0) ∧
      applyMove gFull 2 3 5 = some (MoveResult.cellOccupied, gFull) :=
  ⟨⟨by decide, by decide, by decide, by decide⟩,
    applyMove_occupied gFull 2 3 5 6 (by decide) (by decide) (by decide) (by decide)
      (by decide) (by decide)⟩

/-! Repeated solved checks. -/

/-- C9: on a session whose puzzle already passes isBoardSolved, any
number of further calls returns true every time and leaves the session
(both grids) unchanged: the check is idempotent and side-effect-free. -/
theorem isBoardSolved_idempotent (st : Session) (n : ℕ)
    (h : isBoardSolved st.unsolved st.solved = some true) :
    repeatIsSolved n st = (List.replicate n (some true), st) := by
  induction n with
  | zero => rfl
  | succ n ih =>
    show (isBoardSolved st.unsolved st.solved :: (repeatIsSolved n st).1,
      (repeatIsSolved n st).2) = _
    rw [h, ih]
    rfl

/-- C9 witness: the session with both grids gFull is solved, and three
calls return three trues without changing it. -/
theorem isBoardSolved_idempotent_witness :
    repeatIsSolved 3 ⟨gFull, gFull⟩ = (List.replicate 3 (some true), ⟨gFull, gFull⟩) :=
  isBoardSolved_idempotent ⟨gFull, gFull⟩ 3 (by decide)

/-! The backtracking fill never touches the diagonal boxes when invoked
the way the generator invokes it. -/

/-- The argument pairs with which fillRemaining can be called starting
from the generator call fillRemaining(0, 3). -/
def ReachArg (i j : ℕ) : Prop :=
  (i ≤ 2 ∧ 3 ≤ j ∧ j ≤ 9) ∨
  (3 ≤ i ∧ i ≤ 5 ∧ (j ≤ 3 ∨ (7 ≤ j ∧ j ≤ 9))) ∨
  (6 ≤ i ∧ i ≤ 7 ∧ j ≤ 6) ∨
  (i = 8 ∧ j ≤ 6)

instance (i j : ℕ) : Decidable (ReachArg i j) := by
  unfold ReachArg; infer_instance

lemma tryNums_frame (f : Grid → ℕ → ℕ → Option (Bool × Grid)) (i j : ℕ)
    (hf : ∀ g b g1, f g i (j + 1) = some (b, g1) →
      ∀ a c, a < 9 → c < 9 → a / 3 = c / 3 → getCell g1 a c = getCell g a c)
    (hne : ∀ a c, a < 9 → c < 9 → a / 3 = c / 3 → ¬(a = i ∧ c = j)) :
    ∀ (L : List ℤ) (g : Grid) (b : Bool) (g1 : Grid),
      tryNums f i j g L = some (b, g1) →
      ∀ a c, a < 9 → c < 9 → a / 3 = c / 3 → getCell g1 a c = getCell g a c := by
  intro L
  induction L with
  | nil =>
    intro g b g1 h a c ha hc hd
    simp only [tryNums] at h
    cases h
    rfl
  | cons num rest ih =>
    intro g b g1 h a c ha hc hd
    simp only [tryNums] at h
    cases hcs : checkIfSafe g i j num with
    | none => simp only [hcs] at h; exact absurd h (by simp)
    | some sb =>
      cases sb with
      | false =>
        simp only [hcs] at h
        exact ih g b g1 h a c ha hc hd
      | true =>
        simp only [hcs] at h
        cases hset1 : setCell g i j num with
        | none => simp only [hset1] at h; exact absurd h (by simp)
        | some gA =>
          simp only [hset1] at h
          cases hrec : f gA i (j + 1) with
          | none => simp only [hrec] at h; exact absurd h (by simp)
          | some r =>
            obtain ⟨rb, gB⟩ := r
            cases rb with
            | true =>
              simp only [hrec] at h
              have h4 : gB = g1 := congrArg Prod.snd (Option.some.inj h)
              subst h4
              rw [hf gA true gB hrec a c ha hc hd,
                setCell_getCell_ne hset1 (hne a c ha hc hd)]
            | false =>
              simp only [hrec] at h
              cases hset2 : setCell gB i j 0 with
              | none => simp only [hset2] at h; exact absurd h (by simp)
              | some gC =>
                simp only [hset2] at h
                rw [ih gC b g1 h a c ha hc hd,
                  setCell_getCell_ne hset2 (hne a c ha hc hd),
                  hf gA false gB hrec a c ha hc hd,
                  setCell_getCell_ne hset1 (hne a c ha hc hd)]

lemma fillRemaining_frame_reach :
    ∀ (fuel i0 j0 : ℕ), ReachArg i0 j0 →
      ∀ (g : Grid) (b : Bool) (g1 : Grid),
        fillRemaining fuel g i0 j0 = some (b, g1) →
        ∀ a c, a < 9 → c < 9 → a / 3 = c / 3 → getCell g1 a c = getCell g a c := by
  intro fuel
  induction fuel with
  | zero =>
    intro i0 j0 hR g b g1 h
    simp only [fillRemaining] at h
    exact absurd h (by simp)
  | succ fuel ih =>
    intro i0 j0 hR g b g1 h
    unfold ReachArg at hR
    simp only [fillRemaining] at h
    by_cases hP : 9 ≤ j0 ∧ i0 < 8
    · simp only [if_pos hP] at h
      rw [if_neg (show ¬(9 ≤ i0 + 1 ∧ 9 ≤ 0) by omega)] at h
      by_cases h3 : i0 + 1 < 3
      · rw [if_pos h3, if_pos (show 0 < 3 by omega)] at h
        exact tryNums_frame (fillRemaining fuel) (i0 + 1) 3
          (fun g2 b2 g3 hrec => ih (i0 + 1) (3 + 1) (by unfold ReachArg; omega) g2 b2 g3 hrec)
          (fun a c ha hc hd => by omega)
          nums1to9 g b g1 h
      · rw [if_neg h3] at h
        by_cases h6 : i0 + 1 < 6
        · rw [if_pos h6, if_neg (show ¬(0 = (i0 + 1) / 3 * 3) by omega)] at h
          exact tryNums_frame (fillRemaining fuel) (i0 + 1) 0
            (fun g2 b2 g3 hrec => ih (i0 + 1) (0 + 1) (by unfold ReachArg; omega) g2 b2 g3 hrec)
            (fun a c ha hc hd => by omega)
            nums1to9 g b g1 h
        · rw [if_neg h6, if_neg (show ¬(0 = 6) by omega)] at h
          exact tryNums_frame (fillRemaining fuel) (i0 + 1) 0
            (fun g2 b2 g3 hrec => ih (i0 + 1) (0 + 1) (by unfold ReachArg; omega) g2 b2 g3 hrec)
            (fun a c ha hc hd => by omega)
            nums1to9 g b g1 h
    · simp only [if_neg hP] at h
      rw [if_neg (show ¬(9 ≤ i0 ∧ 9 ≤ j0) by omega)] at h
      by_cases hi3 : i0 < 3
      · rw [if_pos hi3, if_neg (show ¬(j0 < 3) by omega)] at h
        exact tryNums_frame (fillRemaining fuel) i0 j0
          (fun g2 b2 g3 hrec => ih i0 (j0 + 1) (by unfold ReachArg; omega) g2 b2 g3 hrec)
          (fun a c ha hc hd => by omega)
          nums1to9 g b g1 h
      · rw [if_neg hi3] at h
        by_cases hi6 : i0 < 6
        · rw [if_pos hi6] at h
          by_cases hj3 : j0 = i0 / 3 * 3
          · rw [if_pos hj3] at h
            exact tryNums_frame (fillRemaining fuel) i0 (j0 + 3)
              (fun g2 b2 g3 hrec => ih i0 (j0 + 3 + 1) (by unfold ReachArg; omega) g2 b2 g3 hrec)
              (fun a c ha hc hd => by omega)
              nums1to9 g b g1 h
          · rw [if_neg hj3] at h
            exact tryNums_frame (fillRemaining fuel) i0 j0
              (fun g2 b2 g3 hrec => ih i0 (j0 + 1) (by unfold ReachArg; omega) g2 b2 g3 hrec)
              (fun a c ha hc hd => by omega)
              nums1to9 g b g1 h
        · rw [if_neg hi6] at h
          by_cases hj6 : j0 = 6
          · rw [if_pos hj6] at h
            by_cases h9 : 9 ≤ i0 + 1
            · rw [if_pos h9] at h
              have h4 : g = g1 := congrArg Prod.snd (Option.some.inj h)
              subst h4
              intro a c ha hc hd
              rfl
            · rw [if_neg h9] at h
              exact tryNums_frame (fillRemaining fuel) (i0 + 1) 0
                (fun g2 b2 g3 hrec => ih (i0 + 1) (0 + 1) (by unfold ReachArg; omega) g2 b2 g3 hrec)
                (fun a c ha hc hd => by omega)
                nums1to9 g b g1 h
          · rw [if_neg hj6] at h
            exact tryNums_frame (fillRemaining fuel) i0 j0
              (fun g2 b2 g3 hrec => ih i0 (j0 + 1) (by unfold ReachArg; omega) g2 b2 g3 hrec)
              (fun a c ha hc hd => by omega)
              nums1to9 g b g1 h

/-- C10 (amended): invoked as the generator invokes it, with arguments
(0, 3), the backtracking fill never changes the 27 cells of the three
diagonal 3x3 boxes: whenever fillRemaining returns, every cell (a, c)
with a / 3 = c / 3 holds exactly the value it held before the call.
(The counterexample shows that a call with other arguments, such as
(8, 8), can overwrite a diagonal cell, so the restriction to the
generator call pattern is necessary.) -/
theorem fillRemaining_preserves_diagonal (fuel : ℕ) (g : Grid) (b : Bool) (g1 : Grid)
    (h : fillRemaining fuel g 0 3 = some (b, g1)) :
    ∀ a c, a < 9 → c < 9 → a / 3 = c / 3 → getCell g1 a c = getCell g a c :=
  fillRemaining_frame_reach fuel 0 3 (by unfold ReachArg; omega) g b g1 h

/-- C10 witness: on the full grid the generator call returns
(false, gFull) with one unit of fuel, and the theorem applies to it. -/
theorem fillRemaining_preserves_diagonal_witness :
    fillRemaining 1 gFull 0 3 = some (false, gFull) ∧
      (∀ a c, a < 9 → c < 9 → a / 3 = c / 3 → getCell gFull a c = getCell gFull a c) :=
  ⟨by decide, fillRemaining_preserves_diagonal 1 gFull false gFull (by decide)⟩

/-- C10 counterexample: a call of fillRemaining at (8, 8) on gDiagCex
completes (returning false), yet afterwards the diagonal-box cell (8,8)
holds 0 instead of its prior value 5: the function wrote 9 there and,
backtracking, reset the cell to 0.  So fillRemaining is not
write-free on the diagonal boxes for arbitrary calls. -/
theorem fillRemaining_can_write_diagonal :
    (fillRemaining 2 gDiagCex 8 8).map (fun r => getCell r.2 8 8) = some (some 0) ∧
      getCell gDiagCex 8 8 = some 5 := by decide

end Sudoku
